import Mathlib

/-!
Verification development for the holland spool core
(`holland/core/spool.py`): a shallow embedding of the
Spool / Backupset / Backup hierarchy and proofs about
retention purge, listing order, symlink maintenance and
name lookup.

The filesystem is modelled explicitly: a backupset directory is a
list of named entries (real directories, plain files, or symlinks
with a stored target).  Directory-absence is modelled by `Option`.
Names are modelled as single path components (no embedded `/`) and
symlinks are modelled as non-dangling, which is the situation all
claims quantify over.
-/

namespace Holland

/-! ### Python string helpers -/

/-- The whitespace characters stripped by Python's `str.strip()`
(restricted to the ASCII range; the claims only use ASCII names). -/
def isPySpace (c : Char) : Bool :=
  c = ' ' || c = '\t' || c = '\n' || c = '\r' || c = '\x0b' || c = '\x0c'

/-- Python `str.strip()`: remove leading and trailing whitespace. -/
def pyStrip (s : String) : String :=
  String.mk (((s.data.dropWhile isPySpace).reverse.dropWhile isPySpace).reverse)

/-- Auxiliary loop for `pySplit`, structural over the character list. -/
def pySplitAux (sep : Char) : List Char → List Char → List String
  | [], acc => [String.mk acc.reverse]
  | c :: cs, acc =>
      if c = sep then String.mk acc.reverse :: pySplitAux sep cs []
      else pySplitAux sep cs (c :: acc)

/-- Python `str.split(sep)` for a one-character separator:
`"a/b".split("/") = ["a","b"]`, `"a/".split("/") = ["a",""]`,
`"".split("/") = [""]`. -/
def pySplit (s : String) (sep : Char) : List String :=
  pySplitAux sep s.data []

/-- Python `os.path.join` for a relative second component. -/
def pjoin (a b : String) : String := a ++ "/" ++ b

/-- Lexicographic (code-point) strict comparison of character lists,
i.e. Python's `<` on strings; identical to Lean's `List.lt` on
`s.data` but computable by the kernel. -/
def charListLt : List Char → List Char → Bool
  | _, [] => false
  | [], _ :: _ => true
  | a :: as, b :: bs =>
      if a < b then true else if b < a then false else charListLt as bs

/-- Python's `<=` on strings (`a <= b` iff `not (b < a)`). -/
def nameLe (a b : String) : Bool := !charListLt b.data a.data

/-- The ordering relation `list.sort(key=lambda x: x.name)` sorts by,
as a decidable proposition. -/
def nameOrder (a b : String) : Prop := nameLe a b = true

instance : DecidableRel nameOrder := fun a b =>
  inferInstanceAs (Decidable (nameLe a b = true))

/-! ### The `time.strptime(name, "%Y%m%d_%H%M%S")` filter

`Backupset.list_backups` keeps exactly the directory entries for which
`time.strptime(entry, "%Y%m%d_%H%M%S")` succeeds.  CPython compiles the
format to the regex
`(\d\d\d\d)(1[0-2]|0[1-9]|[1-9])(3[01]|[12]\d|0[1-9]|[1-9])_`
`(2[0-3]|[0-1]\d|\d)([0-5]\d|\d)(6[0-1]|[0-5]\d|\d)`,
takes the first match found by backtracking (alternatives tried in the
listed order), requires that this match consume the whole string
("unconverted data remains" otherwise), and finally validates the
calendar date via `datetime.date(year, month, day)` (which also
requires `year ≥ 1`).  The functions below reproduce that search:
each `*Alts` function returns every alternative parse in the engine's
preference order, and `strptimeFound` takes the first complete match. -/

/-- Numeric value of a decimal digit character. -/
def dval (c : Char) : Nat := c.toNat - 48

/-- Parsed fields of a `%Y%m%d_%H%M%S` match. -/
structure TmStruct where
  year : Nat
  month : Nat
  day : Nat
  hour : Nat
  minute : Nat
  second : Nat
deriving DecidableEq

/-- Year field: `%Y` is exactly four digits. -/
def yearAlts : List Char → List (Nat × List Char)
  | c1 :: c2 :: c3 :: c4 :: rest =>
      if c1.isDigit ∧ c2.isDigit ∧ c3.isDigit ∧ c4.isDigit then
        [(1000 * dval c1 + 100 * dval c2 + 10 * dval c3 + dval c4, rest)]
      else []
  | _ => []

/-- Month field: `%m` is `1[0-2]|0[1-9]|[1-9]`. -/
def monthAlts : List Char → List (Nat × List Char)
  | c1 :: c2 :: rest =>
      (if c1 = '1' ∧ '0' ≤ c2 ∧ c2 ≤ '2' then [(10 + dval c2, rest)] else []) ++
      (if c1 = '0' ∧ '1' ≤ c2 ∧ c2 ≤ '9' then [(dval c2, rest)] else []) ++
      (if '1' ≤ c1 ∧ c1 ≤ '9' then [(dval c1, c2 :: rest)] else [])
  | [c1] => if '1' ≤ c1 ∧ c1 ≤ '9' then [(dval c1, [])] else []
  | [] => []

/-- Day field: `%d` is `3[01]|[12]\d|0[1-9]|[1-9]`. -/
def dayAlts : List Char → List (Nat × List Char)
  | c1 :: c2 :: rest =>
      (if c1 = '3' ∧ (c2 = '0' ∨ c2 = '1') then [(30 + dval c2, rest)] else []) ++
      (if (c1 = '1' ∨ c1 = '2') ∧ c2.isDigit then [(10 * dval c1 + dval c2, rest)] else []) ++
      (if c1 = '0' ∧ '1' ≤ c2 ∧ c2 ≤ '9' then [(dval c2, rest)] else []) ++
      (if '1' ≤ c1 ∧ c1 ≤ '9' then [(dval c1, c2 :: rest)] else [])
  | [c1] => if '1' ≤ c1 ∧ c1 ≤ '9' then [(dval c1, [])] else []
  | [] => []

/-- Hour field: `%H` is `2[0-3]|[0-1]\d|\d`. -/
def hourAlts : List Char → List (Nat × List Char)
  | c1 :: c2 :: rest =>
      (if c1 = '2' ∧ '0' ≤ c2 ∧ c2 ≤ '3' then [(20 + dval c2, rest)] else []) ++
      (if (c1 = '0' ∨ c1 = '1') ∧ c2.isDigit then [(10 * dval c1 + dval c2, rest)] else []) ++
      (if c1.isDigit then [(dval c1, c2 :: rest)] else [])
  | [c1] => if c1.isDigit then [(dval c1, [])] else []
  | [] => []

/-- Minute field: `%M` is `[0-5]\d|\d`. -/
def minuteAlts : List Char → List (Nat × List Char)
  | c1 :: c2 :: rest =>
      (if '0' ≤ c1 ∧ c1 ≤ '5' ∧ c2.isDigit then [(10 * dval c1 + dval c2, rest)] else []) ++
      (if c1.isDigit then [(dval c1, c2 :: rest)] else [])
  | [c1] => if c1.isDigit then [(dval c1, [])] else []
  | [] => []

/-- Second field: `%S` is `6[0-1]|[0-5]\d|\d`. -/
def secondAlts : List Char → List (Nat × List Char)
  | c1 :: c2 :: rest =>
      (if c1 = '6' ∧ (c2 = '0' ∨ c2 = '1') then [(60 + dval c2, rest)] else []) ++
      (if '0' ≤ c1 ∧ c1 ≤ '5' ∧ c2.isDigit then [(10 * dval c1 + dval c2, rest)] else []) ++
      (if c1.isDigit then [(dval c1, c2 :: rest)] else [])
  | [c1] => if c1.isDigit then [(dval c1, [])] else []
  | [] => []

/-- Every complete match of the compiled format regex against `cs`, in
the regex engine's backtracking preference order; each result carries
the unconsumed remainder. -/
def formatMatches (cs : List Char) : List (TmStruct × List Char) :=
  (yearAlts cs).flatMap fun yr =>
    (monthAlts yr.2).flatMap fun mo =>
      (dayAlts mo.2).flatMap fun dy =>
        match dy.2 with
        | '_' :: r3 =>
          (hourAlts r3).flatMap fun hr =>
            (minuteAlts hr.2).flatMap fun mi =>
              (secondAlts mi.2).map fun se =>
                (⟨yr.1, mo.1, dy.1, hr.1, mi.1, se.1⟩, se.2)
        | _ => []

/-- The match `re.match` reports: the first one in preference order. -/
def strptimeFound (cs : List Char) : Option (TmStruct × List Char) :=
  (formatMatches cs).head?

/-- Gregorian leap-year rule, as used by `datetime.date`. -/
def isLeapYear (y : Nat) : Bool :=
  (y % 4 = 0 ∧ y % 100 ≠ 0) ∨ y % 400 = 0

/-- Days in a month, as used by `datetime.date`. -/
def daysInMonth (y m : Nat) : Nat :=
  if m = 2 then (if isLeapYear y then 29 else 28)
  else if m = 4 ∨ m = 6 ∨ m = 9 ∨ m = 11 then 30
  else 31

/-- The `datetime.date(year, month, day)` validation performed inside
`_strptime` (month and day lower bounds are already regex-guaranteed). -/
def dateOk (t : TmStruct) : Bool :=
  1 ≤ t.year ∧ t.day ≤ daysInMonth t.year t.month

/-- Success of `time.strptime(s, "%Y%m%d_%H%M%S")`: true iff the first
regex match consumes the whole string and the date is calendar-valid. -/
def strptimeOk (s : String) : Bool :=
  match strptimeFound s.data with
  | some (t, rest) => rest.isEmpty && dateOk t
  | none => false

/-- Modelled from the spec's words, for comparison with the code's
filter: the fixed-width pattern `YYYYMMDD_HHMMSS` — eight digits, an
underscore, six digits. -/
def isTimestampShape (s : String) : Bool :=
  match s.data with
  | [y1, y2, y3, y4, m1, m2, d1, d2, u, h1, h2, n1, n2, s1, s2] =>
      u = '_' ∧
        ([y1, y2, y3, y4, m1, m2, d1, d2, h1, h2, n1, n2, s1, s2].all Char.isDigit)
  | _ => false

/-! ### Filesystem model -/

/-- What a directory entry is on disk: a real directory, a plain file,
or a symlink carrying its target path. -/
inductive EntryKind where
  | dir : EntryKind
  | file : EntryKind
  | link : String → EntryKind
deriving DecidableEq

/-- One entry of a backupset directory. -/
structure Entry where
  name : String
  kind : EntryKind
deriving DecidableEq

/-- Truth of `os.path.isdir(path) and not os.path.islink(path)`: a real
directory (a symlink pointing at a directory is excluded). -/
def Entry.isRealDir (e : Entry) : Bool := e.kind = EntryKind.dir

namespace Backupset

/-- The names of entries that pass the backup filter of
`Backupset.list_backups`: real directories whose name `strptime`s. -/
def filteredNames (st : List Entry) : List String :=
  (st.filter fun e => e.isRealDir && strptimeOk e.name).map Entry.name

/-- The ascending (by name) backup listing of a backupset directory. -/
def listAscNames (st : List Entry) : List String :=
  List.insertionSort nameOrder (filteredNames st)

/-- Model of `Backupset.list_backups(name, reverse)`.  The outer `Option` is
Python's `None` for a missing backupset directory.  Backups are
represented by their directory basename. -/
def list_backups (dir : Option (List Entry)) (nameArg : Option String)
    (rev : Bool) : Option (List String) :=
  match dir with
  | none => none
  | some st =>
      let name := pyStrip (nameArg.getD "")
      if name ≠ "" then
        some (if st.any fun e => e.name = name then [name] else [])
      else
        let asc := listAscNames st
        some (if rev then asc.reverse else asc)

/-- Model of `Backupset.find_backup(name)`: first element of `list_backups(name)`
if that is non-`None` and non-empty. -/
def find_backup (dir : Option (List Entry)) (name : String) : Option String :=
  match list_backups dir (some name) false with
  | none => none
  | some [] => none
  | some (b :: _) => some b

/-- One step of the purge loop: `shutil.rmtree` of the backup directory
named `n` (removing a name that is already absent is the tolerated
`ENOENT` case). -/
def removeBackupDir (st : List Entry) (n : String) : List Entry :=
  st.filter fun e => e.name ≠ n

/-- The fully-consumed purge loop: for each name, remove it from disk,
then yield it.  Returns the yielded names and the final directory. -/
def purgeRun (st : List Entry) : List String → List String × List Entry
  | [] => ([], st)
  | n :: ns =>
      let st1 := removeBackupDir st n
      let r := purgeRun st1 ns
      (n :: r.1, r.2)

/-- Errors surfaced by `Backupset.purge`. -/
inductive PurgeErr where
  | invalidArgument : PurgeErr
  | typeErr : PurgeErr
deriving DecidableEq

/-- Model of `Backupset.purge(retention_count)`, fully consumed: raise
`ValueError` for a negative retention count (before touching disk);
iterate the newest-first listing skipping the first `retention_count`
entries, purging then yielding each.  (`islice` over the `None`
returned for a missing directory raises `TypeError`.)  Returns the
outcome together with the final directory state. -/
def purge (dir : Option (List Entry)) (retention : Int) :
    Except PurgeErr (List String) × Option (List Entry) :=
  if retention < 0 then (Except.error PurgeErr.invalidArgument, dir)
  else
    match dir with
    | none => (Except.error PurgeErr.typeErr, none)
    | some st =>
        let victims := (listAscNames st).reverse.drop retention.toNat
        let r := purgeRun st victims
        (Except.ok r.1, some r.2)

/-- Model of `os.remove` of the entry named `nm`, with the caller's tolerance
for `ENOENT` built in: an absent name is a no-op, a real directory is
the fatal non-`ENOENT` error, anything else is unlinked. -/
def removeFileEntry (st : List Entry) (nm : String) :
    Except Unit (List Entry) :=
  match st.find? fun e => e.name = nm with
  | none => Except.ok st
  | some e =>
      match e.kind with
      | EntryKind.dir => Except.error ()
      | _ => Except.ok (st.filter fun x => x.name ≠ nm)

/-- Model of `Backupset.update_symlinks(enable)` on the directory state:
no-op when disabled; otherwise compute the ascending backup listing,
remove any `oldest`/`newest` entries (missing ones tolerated), and,
when the listing is non-empty, create the two links pointing at the
first and last backups' paths. -/
def update_symlinks (bsPath : String) (dir : Option (List Entry))
    (enable : Bool) : Except Unit (Option (List Entry)) :=
  match enable with
  | false => Except.ok dir
  | true =>
    match dir with
    | none => Except.ok none
    | some st =>
        let backups := listAscNames st
        match removeFileEntry st "oldest" with
        | Except.error e => Except.error e
        | Except.ok st1 =>
            match removeFileEntry st1 "newest" with
            | Except.error e => Except.error e
            | Except.ok st2 =>
                match backups, backups.getLast? with
                | b0 :: _, some bl =>
                    Except.ok (some (st2 ++
                      [⟨"oldest", EntryKind.link (pjoin bsPath b0)⟩,
                       ⟨"newest", EntryKind.link (pjoin bsPath bl)⟩]))
                | _, _ => Except.ok (some st2)

end Backupset

namespace Backup

/-- Outcome of the `shutil.rmtree` call inside `Backup.purge`. -/
inductive RmtreeOutcome where
  | removed : RmtreeOutcome
  | enoent : RmtreeOutcome
  | otherError : RmtreeOutcome
deriving DecidableEq

/-- Failure modes of `Backup.purge`. -/
inductive PurgeFailure where
  | assertionError : PurgeFailure
  | osError : PurgeFailure
deriving DecidableEq

/-- Model of `Backup.purge()`: assert that the resolved real path is not the
filesystem root, then `shutil.rmtree` the backup directory, tolerating
`ENOENT` and propagating any other `OSError`.  The second component
records whether the removal was attempted at all. -/
def purge (realpath : String) (out : RmtreeOutcome) :
    Except PurgeFailure Unit × Bool :=
  if realpath = "/" then (Except.error PurgeFailure.assertionError, false)
  else
    match out with
    | RmtreeOutcome.removed => (Except.ok (), true)
    | RmtreeOutcome.enoent => (Except.ok (), true)
    | RmtreeOutcome.otherError => (Except.error PurgeFailure.osError, true)

end Backup

/-! ### Spool model

The spool root is modelled as an association list from backupset name
(a direct child directory's basename) to that directory's entries. -/

def SpoolState := List (String × List Entry)

namespace Spool

/-- Look up a backupset's directory contents by name. -/
def lookup (spool : SpoolState) (nm : String) : Option (List Entry) :=
  match List.find? (fun p => p.1 = nm) spool with
  | none => none
  | some p => some p.2

/-- Model of `Spool.find_backupset(name)`: a handle iff the path exists. -/
def find_backupset (spool : SpoolState) (nm : String) :
    Option (List Entry) :=
  lookup spool nm

/-- Result of `Spool.find_backup`: the found backup (if any) and
whether the invalid-name warning was logged. -/
structure FindResult where
  result : Option String
  invalidNameWarning : Bool
deriving DecidableEq

/-- Model of `Spool.find_backup(name)`: unpack `name.split("/")` into exactly
two variables (a `ValueError` on any other arity is caught, logged and
turned into `None`), then delegate to the backupset's lookup. -/
def find_backup (spool : SpoolState) (name : String) : FindResult :=
  match pySplit name '/' with
  | [bsName, timestamp] =>
      match find_backupset spool bsName with
      | none => ⟨none, false⟩
      | some st => ⟨Backupset.find_backup (some st) timestamp, false⟩
  | _ => ⟨none, true⟩

/-- A `Backupset` handle as returned by `Spool.add_backupset`. -/
structure BackupsetHandle where
  name : String
  path : String
deriving DecidableEq

/-- Errors surfaced by `Spool.add_backupset`. -/
inductive AddErr where
  | alreadyExists : AddErr
deriving DecidableEq

/-- Model of `Spool.add_backupset(name)`: `IOError` if `<root>/<name>` exists,
otherwise an in-memory handle; the spool state is returned unchanged in
both branches because the source performs no filesystem mutation. -/
def add_backupset (spool : SpoolState) (root nm : String) :
    Except AddErr BackupsetHandle × SpoolState :=
  if spool.any fun p => p.1 = nm then
    (Except.error AddErr.alreadyExists, spool)
  else
    (Except.ok ⟨nm, pjoin root nm⟩, spool)

end Spool

/-- A concrete example backupset directory used by witnesses: three
timestamped backups, a foreign subdirectory, a plain file and a
symlink. -/
def exDir : List Entry :=
  [⟨"20200102_000000", EntryKind.dir⟩,
   ⟨"20200101_000000", EntryKind.dir⟩,
   ⟨"20200103_000000", EntryKind.dir⟩,
   ⟨"notes", EntryKind.dir⟩,
   ⟨"backup.log", EntryKind.file⟩,
   ⟨"oldest", EntryKind.link "target"⟩]

/-- A concrete example spool used by witnesses. -/
def exSpool : SpoolState := [("mysql", exDir)]

/-! ### Facts about the name order -/

theorem charListLt_iff : ∀ as bs : List Char, charListLt as bs = true ↔ List.lt as bs
  | as, [] => by
      constructor
      · intro h; cases as <;> simp [charListLt] at h
      · intro h; cases h
  | [], _ :: _ => by
      simp only [charListLt, true_iff]
      exact List.lt.nil _ _
  | a :: as, b :: bs => by
      simp only [charListLt]
      by_cases h1 : a < b
      · simp only [if_pos h1, true_iff]
        exact List.lt.head _ _ h1
      · by_cases h2 : b < a
        · simp only [if_neg h1, if_pos h2]
          constructor
          · intro h; exact Bool.noConfusion h
          · intro h
            cases h with
            | head _ _ h' => exact absurd h' h1
            | tail _ hba _ => exact absurd h2 hba
        · simp only [if_neg h1, if_neg h2, charListLt_iff as bs]
          constructor
          · intro h; exact List.lt.tail h1 h2 h
          · intro h
            cases h with
            | head _ _ h' => exact absurd h' h1
            | tail _ _ h3 => exact h3

theorem string_lt_iff (a b : String) : a < b ↔ List.lt a.data b.data := by
  rw [String.lt_iff_toList_lt]
  exact (List.lt_iff_lex_lt a.data b.data).symm

theorem nameLe_iff (a b : String) : nameLe a b = true ↔ a ≤ b := by
  rw [← not_lt, string_lt_iff, ← charListLt_iff]
  simp [nameLe]

instance : IsTrans String nameOrder :=
  ⟨fun a b c h1 h2 => by
    simp only [nameOrder, nameLe_iff] at h1 h2 ⊢
    exact le_trans h1 h2⟩

instance : IsTotal String nameOrder :=
  ⟨fun a b => by
    simp only [nameOrder, nameLe_iff]
    exact le_total a b⟩

instance : IsAntisymm String nameOrder :=
  ⟨fun a b h1 h2 => by
    simp only [nameOrder, nameLe_iff] at h1 h2
    exact le_antisymm h1 h2⟩

/-! ### Facts about the backup listing -/

namespace Backupset

theorem listAscNames_sorted (st : List Entry) :
    (listAscNames st).Sorted nameOrder :=
  List.sorted_insertionSort nameOrder _

theorem listAscNames_sorted_le (st : List Entry) :
    (listAscNames st).Sorted (· ≤ ·) :=
  (listAscNames_sorted st).imp fun h => (nameLe_iff _ _).1 h

theorem listAscNames_perm (st : List Entry) :
    (listAscNames st).Perm (filteredNames st) :=
  List.perm_insertionSort nameOrder _

theorem mem_listAscNames {st : List Entry} {x : String} :
    x ∈ listAscNames st ↔
      ∃ e ∈ st, (e.isRealDir && strptimeOk e.name) = true ∧ e.name = x := by
  rw [(listAscNames_perm st).mem_iff]
  simp only [filteredNames, List.mem_map, List.mem_filter]
  constructor
  · rintro ⟨e, ⟨he, hp⟩, hx⟩; exact ⟨e, he, hp, hx⟩
  · rintro ⟨e, he, hp, hx⟩; exact ⟨e, ⟨he, hp⟩, hx⟩

theorem filteredNames_nodup {st : List Entry}
    (h : (st.map Entry.name).Nodup) : (filteredNames st).Nodup := by
  have hs : List.Sublist (filteredNames st) (st.map Entry.name) :=
    (List.filter_sublist st).map Entry.name
  exact h.sublist hs

theorem listAscNames_nodup {st : List Entry}
    (h : (st.map Entry.name).Nodup) : (listAscNames st).Nodup :=
  ((listAscNames_perm st).nodup_iff).2 (filteredNames_nodup h)

theorem listAscNames_sorted_lt {st : List Entry}
    (h : (st.map Entry.name).Nodup) : (listAscNames st).Sorted (· < ·) :=
  (listAscNames_sorted_le st).lt_of_le (listAscNames_nodup h)

theorem insertionSort_filter (q : String → Bool) (l : List String) :
    List.insertionSort nameOrder (l.filter q) =
      (List.insertionSort nameOrder l).filter q := by
  apply List.eq_of_perm_of_sorted (r := nameOrder)
  · exact (List.perm_insertionSort nameOrder _).trans
      (((List.perm_insertionSort nameOrder l).symm).filter q)
  · exact List.sorted_insertionSort nameOrder _
  · exact (List.sorted_insertionSort nameOrder l).filter q

theorem filteredNames_filter (st : List Entry) (q : String → Bool) :
    filteredNames (st.filter fun e => q e.name) = (filteredNames st).filter q := by
  unfold filteredNames
  rw [List.filter_map, List.filter_filter, List.filter_filter]
  congr 1
  apply List.filter_congr
  intro x _
  simp [Bool.and_comm]

theorem listAscNames_filter (st : List Entry) (q : String → Bool) :
    listAscNames (st.filter fun e => q e.name) = (listAscNames st).filter q := by
  unfold listAscNames
  rw [filteredNames_filter, insertionSort_filter]

theorem purgeRun_fst (st : List Entry) (ns : List String) :
    (purgeRun st ns).1 = ns := by
  induction ns generalizing st with
  | nil => rfl
  | cons n ns ih => simp [purgeRun, ih]

theorem purgeRun_snd (st : List Entry) (ns : List String) :
    (purgeRun st ns).2 = st.filter fun e => decide (e.name ∉ ns) := by
  induction ns generalizing st with
  | nil => simp [purgeRun]
  | cons n ns ih =>
      simp only [purgeRun, ih, removeBackupDir, List.filter_filter]
      apply List.filter_congr
      intro x _
      simp only [List.mem_cons, not_or, Bool.decide_and, decide_not]
      rw [Bool.and_comm]

theorem filter_not_mem_append {u v : List String}
    (hd : ∀ x ∈ v, x ∉ u) :
    ((u ++ v).filter fun x => decide (x ∉ u)) = v := by
  rw [List.filter_append]
  have h1 : (u.filter fun x => decide (x ∉ u)) = [] := by
    rw [List.filter_eq_nil_iff]
    intro a ha
    simp [ha]
  have h2 : (v.filter fun x => decide (x ∉ u)) = v := by
    rw [List.filter_eq_self]
    intro a ha
    simp [hd a ha]
  rw [h1, h2, List.nil_append]

theorem filter_not_mem_take {l : List String} (m : Nat) (h : l.Nodup) :
    (l.filter fun x => decide (x ∉ l.take m)) = l.drop m := by
  have key := filter_not_mem_append (u := l.take m) (v := l.drop m)
    (fun x hx hc => List.disjoint_take_drop h (le_refl m) hc hx)
  rw [List.take_append_drop] at key
  exact key

end Backupset

/-! ### Claims about `Backupset.purge` -/

/-- C1: on a backupset directory holding `k` backups, fully consuming
`purge(n)` removes exactly the `k - n` (that is, `max(0, k-n)`) oldest
backups, and a subsequent `list_backups()` returns exactly the
`min(n, k)` newest ones; in particular `purge(0)` removes everything
and `purge(n)` with `n ≥ k` removes nothing. -/
theorem c1_purge_retention (st : List Entry) (n : Nat)
    (hnd : (st.map Entry.name).Nodup) :
    ∃ removed fin,
      Backupset.purge (some st) (n : Int) = (Except.ok removed, some fin) ∧
      removed.length = (Backupset.listAscNames st).length - n ∧
      (∀ x, x ∈ removed ↔
        x ∈ (Backupset.listAscNames st).take
          ((Backupset.listAscNames st).length - n)) ∧
      Backupset.list_backups (some fin) none false =
        some ((Backupset.listAscNames st).drop
          ((Backupset.listAscNames st).length - n)) ∧
      ((Backupset.listAscNames st).drop
          ((Backupset.listAscNames st).length - n)).length =
        min n (Backupset.listAscNames st).length := by
  set A := Backupset.listAscNames st with hA
  have hAnd : A.Nodup := Backupset.listAscNames_nodup hnd
  have hneg : ¬ ((n : Int) < 0) := by omega
  have htn : (n : Int).toNat = n := Int.toNat_natCast n
  refine ⟨A.reverse.drop n, (Backupset.purgeRun st (A.reverse.drop n)).2, ?_, ?_, ?_, ?_, ?_⟩
  · simp only [Backupset.purge, if_neg hneg, htn, ← hA, Backupset.purgeRun_fst]
  · rw [List.length_drop, List.length_reverse]
  · intro x
    rw [List.drop_reverse, List.mem_reverse]
  · have hlb : Backupset.list_backups (some ((Backupset.purgeRun st (A.reverse.drop n)).2)) none false =
        some (Backupset.listAscNames ((Backupset.purgeRun st (A.reverse.drop n)).2)) := rfl
    rw [hlb, Backupset.purgeRun_snd]
    have hfil := Backupset.listAscNames_filter st fun s => decide (s ∉ A.reverse.drop n)
    simp only at hfil
    rw [hfil, ← hA]
    simp only [List.drop_reverse, List.mem_reverse]
    exact congrArg some (Backupset.filter_not_mem_take (A.length - n) hAnd)
  · rw [List.length_drop]
    omega

/-- Witness for C1 at the example directory with `n = 1`. -/
theorem c1_purge_retention_witness :
    (exDir.map Entry.name).Nodup ∧
    (∃ removed fin,
      Backupset.purge (some exDir) ((1 : Nat) : Int) = (Except.ok removed, some fin) ∧
      removed.length = (Backupset.listAscNames exDir).length - 1 ∧
      (∀ x, x ∈ removed ↔
        x ∈ (Backupset.listAscNames exDir).take
          ((Backupset.listAscNames exDir).length - 1)) ∧
      Backupset.list_backups (some fin) none false =
        some ((Backupset.listAscNames exDir).drop
          ((Backupset.listAscNames exDir).length - 1)) ∧
      ((Backupset.listAscNames exDir).drop
          ((Backupset.listAscNames exDir).length - 1)).length =
        min 1 (Backupset.listAscNames exDir).length) :=
  ⟨by decide, c1_purge_retention exDir 1 (by decide)⟩

/-- C2 counterexample: on a backupset with three backups, `purge(1)`
yields the two removed backups newest-first — not oldest-first as the
claim states. -/
theorem c2_counterexample :
    (Backupset.purge (some exDir) 1).1 =
      Except.ok ["20200102_000000", "20200101_000000"] ∧
    ["20200102_000000", "20200101_000000"] ≠
      ["20200101_000000", "20200102_000000"] := by
  exact ⟨rfl, by decide⟩

/-- C2 (amended): fully consuming `purge(n)` yields exactly the removed
backups (the newest-first listing with the first `n` entries skipped),
in strictly descending — newest-first — name order. -/
theorem c2_purge_yield_order (st : List Entry) (n : Nat)
    (hnd : (st.map Entry.name).Nodup) :
    (Backupset.purge (some st) (n : Int)).1 =
      Except.ok ((Backupset.listAscNames st).reverse.drop n) ∧
    ((Backupset.listAscNames st).reverse.drop n).Sorted (· > ·) := by
  constructor
  · have hneg : ¬ ((n : Int) < 0) := by omega
    simp only [Backupset.purge, if_neg hneg, Int.toNat_natCast, Backupset.purgeRun_fst]
  · have h1 : (Backupset.listAscNames st).Sorted (· < ·) :=
      Backupset.listAscNames_sorted_lt hnd
    have h2 : (Backupset.listAscNames st).reverse.Sorted (· > ·) := by
      rw [List.Sorted, List.pairwise_reverse]
      exact h1
    exact h2.drop

/-- Witness for the amended C2 at the example directory with `n = 1`. -/
theorem c2_purge_yield_order_witness :
    (exDir.map Entry.name).Nodup ∧
    ((Backupset.purge (some exDir) ((1 : Nat) : Int)).1 =
      Except.ok ((Backupset.listAscNames exDir).reverse.drop 1) ∧
    ((Backupset.listAscNames exDir).reverse.drop 1).Sorted (· > ·)) :=
  ⟨by decide, c2_purge_yield_order exDir 1 (by decide)⟩

/-- C7: a negative retention count fails with the InvalidArgument
condition (`ValueError`) and the directory state is returned untouched
— no partial purge happens before the failure. -/
theorem c7_purge_negative_retention (dir : Option (List Entry))
    (retention : Int) (h : retention < 0) :
    Backupset.purge dir retention =
      (Except.error Backupset.PurgeErr.invalidArgument, dir) := by
  simp [Backupset.purge, if_pos h]

/-- Witness for C7 at the example directory with retention `-1`. -/
theorem c7_purge_negative_retention_witness :
    (-1 : Int) < 0 ∧
    Backupset.purge (some exDir) (-1) =
      (Except.error Backupset.PurgeErr.invalidArgument, some exDir) :=
  ⟨by decide, c7_purge_negative_retention (some exDir) (-1) (by decide)⟩

/-- C3 counterexample: a real directory named `20200101_0000` does not
match the fixed-width `YYYYMMDD_HHMMSS` pattern, yet `list_backups()`
returns it, because the code's `strptime`-based filter also accepts
un-padded hour/minute/second fields. -/
theorem c3_counterexample :
    Backupset.list_backups (some [⟨"20200101_0000", EntryKind.dir⟩]) none false =
      some ["20200101_0000"] ∧
    isTimestampShape "20200101_0000" = false := by
  exact ⟨rfl, by decide⟩

/-- C3 (amended): `list_backups()` with no name returns exactly the
entries that are real directories (symlinks excluded) whose basename is
accepted by Python's `strptime` with format `%Y%m%d_%H%M%S` — a lenient
superset of the fixed-width `YYYYMMDD_HHMMSS` shape — sorted in
strictly ascending lexicographic order by name, and `reverse=True`
returns the exact reverse of that sequence. -/
theorem c3_list_backups_order (st : List Entry)
    (hnd : (st.map Entry.name).Nodup) :
    (Backupset.list_backups (some st) none false =
       some (Backupset.listAscNames st)) ∧
    (∀ x, x ∈ Backupset.listAscNames st ↔
       ∃ e ∈ st, (e.isRealDir && strptimeOk e.name) = true ∧ e.name = x) ∧
    (Backupset.listAscNames st).Sorted (· < ·) ∧
    Backupset.list_backups (some st) none true =
      some (Backupset.listAscNames st).reverse := by
  refine ⟨rfl, ?_, ?_, rfl⟩
  · intro x
    exact Backupset.mem_listAscNames
  · exact Backupset.listAscNames_sorted_lt hnd

/-- Witness for the amended C3 at the example directory. -/
theorem c3_list_backups_order_witness :
    (exDir.map Entry.name).Nodup ∧
    ((Backupset.list_backups (some exDir) none false =
       some (Backupset.listAscNames exDir)) ∧
    (∀ x, x ∈ Backupset.listAscNames exDir ↔
       ∃ e ∈ exDir, (e.isRealDir && strptimeOk e.name) = true ∧ e.name = x) ∧
    (Backupset.listAscNames exDir).Sorted (· < ·) ∧
    Backupset.list_backups (some exDir) none true =
      some (Backupset.listAscNames exDir).reverse) :=
  ⟨by decide, c3_list_backups_order exDir (by decide)⟩

/-- C5: purging a backup whose resolved real path is the filesystem
root fails via the assertion before any removal is attempted (the
attempted flag stays false); for any other path the removal is
attempted, with an already-absent directory (`ENOENT`) treated as
success and any other removal error propagated as fatal. -/
theorem c5_backup_purge_safety (realpath : String)
    (out : Backup.RmtreeOutcome) :
    ((Backup.purge realpath out).2 = false ↔ realpath = "/") ∧
    (realpath = "/" →
       (Backup.purge realpath out).1 =
         Except.error Backup.PurgeFailure.assertionError) ∧
    (realpath ≠ "/" →
       ((Backup.purge realpath out).1 = Except.ok () ↔
         out ≠ Backup.RmtreeOutcome.otherError)) ∧
    (realpath ≠ "/" → out = Backup.RmtreeOutcome.otherError →
       (Backup.purge realpath out).1 =
         Except.error Backup.PurgeFailure.osError) := by
  by_cases h : realpath = "/"
  · refine ⟨?_, ?_, ?_, ?_⟩
    · simp [Backup.purge, h]
    · intro _; simp [Backup.purge, h]
    · intro hc; exact absurd h hc
    · intro hc; exact absurd h hc
  · refine ⟨?_, ?_, ?_, ?_⟩
    · cases out <;> simp [Backup.purge, h]
    · intro hc; exact absurd hc h
    · intro _; cases out <;> simp [Backup.purge, h]
    · intro _ hout; subst hout; simp [Backup.purge, h]

/-- Witness for C5: the root path aborts, a normal path with an
already-absent directory succeeds. -/
theorem c5_backup_purge_safety_witness :
    ((Backup.purge "/" Backup.RmtreeOutcome.removed).1 =
       Except.error Backup.PurgeFailure.assertionError) ∧
    ((Backup.purge "/var/spool/holland/mysql/20200101_000000"
        Backup.RmtreeOutcome.enoent).1 = Except.ok ()) :=
  ⟨(c5_backup_purge_safety "/" Backup.RmtreeOutcome.removed).2.1 rfl,
   ((c5_backup_purge_safety "/var/spool/holland/mysql/20200101_000000"
      Backup.RmtreeOutcome.enoent).2.2.1 (by decide)).2 (by decide)⟩

/-- C8: `add_backupset(name)` fails with AlreadyExists when
`<root>/<name>` exists, otherwise returns an in-memory handle bound to
`<root>/<name>`; the spool state is unchanged in both cases, because
the source performs no filesystem mutation. -/
theorem c8_add_backupset (spool : SpoolState) (root nm : String) :
    ((Spool.add_backupset spool root nm).2 = spool) ∧
    ((spool.any fun p => p.1 = nm) = true →
       (Spool.add_backupset spool root nm).1 =
         Except.error Spool.AddErr.alreadyExists) ∧
    ((spool.any fun p => p.1 = nm) = false →
       (Spool.add_backupset spool root nm).1 =
         Except.ok ⟨nm, pjoin root nm⟩) := by
  refine ⟨?_, ?_, ?_⟩
  · unfold Spool.add_backupset
    by_cases h : (spool.any fun p => p.1 = nm) = true <;> simp [h]
  · intro h; simp [Spool.add_backupset, h]
  · intro h; simp [Spool.add_backupset, h]

/-- Witness for C8: adding an existing backupset fails, adding a fresh
one returns the handle. -/
theorem c8_add_backupset_witness :
    ((exSpool.any fun p => p.1 = "mysql") = true ∧
     (Spool.add_backupset exSpool "/var/spool/holland" "mysql").1 =
       Except.error Spool.AddErr.alreadyExists) ∧
    ((exSpool.any fun p => p.1 = "pgsql") = false ∧
     (Spool.add_backupset exSpool "/var/spool/holland" "pgsql").1 =
       Except.ok ⟨"pgsql", pjoin "/var/spool/holland" "pgsql"⟩) :=
  ⟨⟨by decide, (c8_add_backupset exSpool "/var/spool/holland" "mysql").2.1 (by decide)⟩,
   ⟨by decide, (c8_add_backupset exSpool "/var/spool/holland" "pgsql").2.2 (by decide)⟩⟩

/-! ### Facts about symlink maintenance -/

theorem removeFileEntry_ok (st : List Entry) (nm : String)
    (h : ∀ e ∈ st, e.name = nm → e.kind ≠ EntryKind.dir) :
    ∃ st1, Backupset.removeFileEntry st nm = Except.ok st1 ∧
      (∀ e ∈ st1, e.name ≠ nm) ∧ ∀ e ∈ st1, e ∈ st := by
  cases hf : st.find? (fun e => e.name = nm) with
  | none =>
      refine ⟨st, ?_, ?_, fun e he => he⟩
      · simp only [Backupset.removeFileEntry, hf]
      · intro e he
        have hne := List.find?_eq_none.1 hf e he
        simpa using hne
  | some e =>
      have hmem : e ∈ st := List.mem_of_find?_eq_some hf
      have hname : e.name = nm := by simpa using List.find?_some hf
      have hkind := h e hmem hname
      cases hk : e.kind with
      | dir => exact absurd hk hkind
      | file =>
          refine ⟨st.filter fun x => x.name ≠ nm, ?_, ?_, ?_⟩
          · simp only [Backupset.removeFileEntry, hf, hk]
          · intro x hx
            simpa using (List.mem_filter.1 hx).2
          · intro x hx
            exact (List.mem_filter.1 hx).1
      | link t =>
          refine ⟨st.filter fun x => x.name ≠ nm, ?_, ?_, ?_⟩
          · simp only [Backupset.removeFileEntry, hf, hk]
          · intro x hx
            simpa using (List.mem_filter.1 hx).2
          · intro x hx
            exact (List.mem_filter.1 hx).1

theorem sorted_head_le {b : String} {bs : List String}
    (hs : (b :: bs).Sorted (· ≤ ·)) : ∀ x ∈ b :: bs, b ≤ x := by
  intro x hx
  rcases List.mem_cons.1 hx with h | h
  · subst h; exact le_rfl
  · exact List.rel_of_sorted_cons hs x h

theorem sorted_le_getLast {l : List String} {M : String}
    (hs : l.Sorted (· ≤ ·)) (hM : l.getLast? = some M) :
    ∀ x ∈ l, x ≤ M := by
  intro x hx
  have hrev : l.reverse.Sorted (fun a b => b ≤ a) := by
    rw [List.Sorted, List.pairwise_reverse]
    exact hs
  cases hr : l.reverse with
  | nil =>
      have hnil : l = [] := by
        have := congrArg List.reverse hr
        simpa using this
      rw [hnil] at hM
      cases hM
  | cons y ys =>
      have hy : y = M := by
        have h1 : l.reverse.head? = l.getLast? := List.head?_reverse l
        rw [hr, hM] at h1
        simpa using h1
      have hx' : x ∈ y :: ys := by
        rw [← hr, List.mem_reverse]
        exact hx
      rcases List.mem_cons.1 hx' with h | h
      · subst h; exact le_of_eq hy
      · have hxy : x ≤ y := by
          rw [hr] at hrev
          exact List.rel_of_sorted_cons hrev x h
        exact hy ▸ hxy

/-- C4: `update_symlinks(enable=False)` changes nothing.  With
`enable=True`, provided any pre-existing `oldest`/`newest` entries are
not real directories (so their removal cannot fail with a
non-`ENOENT` error): the call succeeds even when the links are missing
beforehand; if the backupset has zero backups no `oldest` or `newest`
entry remains; otherwise `oldest` is a symlink to the minimum-named
backup's path and `newest` a symlink to the maximum-named one. -/
theorem c4_update_symlinks (bsPath : String) :
    (∀ dir, Backupset.update_symlinks bsPath dir false = Except.ok dir) ∧
    (∀ st : List Entry,
      (∀ e ∈ st, e.name = "oldest" ∨ e.name = "newest" → e.kind ≠ EntryKind.dir) →
      ∃ st', Backupset.update_symlinks bsPath (some st) true = Except.ok (some st') ∧
        (Backupset.listAscNames st = [] →
           ∀ e ∈ st', e.name ≠ "oldest" ∧ e.name ≠ "newest") ∧
        (∀ b bs, Backupset.listAscNames st = b :: bs →
           ∃ M, (b :: bs).getLast? = some M ∧
             st'.find? (fun e => e.name = "oldest") =
               some ⟨"oldest", EntryKind.link (pjoin bsPath b)⟩ ∧
             st'.find? (fun e => e.name = "newest") =
               some ⟨"newest", EntryKind.link (pjoin bsPath M)⟩ ∧
             (∀ x ∈ Backupset.listAscNames st, b ≤ x) ∧
             (∀ x ∈ Backupset.listAscNames st, x ≤ M))) := by
  constructor
  · intro dir; rfl
  · intro st h
    obtain ⟨st1, h1, hno1, hsub1⟩ :=
      removeFileEntry_ok st "oldest"
        (fun e he hn => h e he (Or.inl hn))
    obtain ⟨st2, h2, hno2, hsub2⟩ :=
      removeFileEntry_ok st1 "newest"
        (fun e he hn => h e (hsub1 e he) (Or.inr hn))
    have hno12 : ∀ e ∈ st2, e.name ≠ "oldest" := fun e he => hno1 e (hsub2 e he)
    cases hB : Backupset.listAscNames st with
    | nil =>
        refine ⟨st2, ?_, ?_, ?_⟩
        · simp only [Backupset.update_symlinks, h1, h2, hB]
        · intro _ e he
          exact ⟨hno12 e he, hno2 e he⟩
        · intro b bs hcon
          cases hcon
    | cons b bs =>
        have hsorted : (b :: bs).Sorted (· ≤ ·) := by
          rw [← hB]
          exact Backupset.listAscNames_sorted_le st
        cases hL : (b :: bs).getLast? with
        | none =>
            rw [List.getLast?_eq_none_iff] at hL
            cases hL
        | some M =>
            refine ⟨st2 ++
              [⟨"oldest", EntryKind.link (pjoin bsPath b)⟩,
               ⟨"newest", EntryKind.link (pjoin bsPath M)⟩], ?_, ?_, ?_⟩
            · simp only [Backupset.update_symlinks, h1, h2, hB, hL]
            · intro hcon
              cases hcon
            · intro b' bs' hcon
              obtain ⟨rfl, rfl⟩ : b = b' ∧ bs = bs' := by
                injection hcon with hh ht
                exact ⟨hh, ht⟩
              refine ⟨M, hL, ?_, ?_, ?_, ?_⟩
              · rw [List.find?_append]
                have hnone : st2.find? (fun e => e.name = "oldest") = none :=
                  List.find?_eq_none.2 (fun x hx => by simpa using hno12 x hx)
                rw [hnone, Option.none_or]
                rfl
              · rw [List.find?_append]
                have hnone : st2.find? (fun e => e.name = "newest") = none :=
                  List.find?_eq_none.2 (fun x hx => by simpa using hno2 x hx)
                rw [hnone, Option.none_or]
                rfl
              · exact sorted_head_le hsorted
              · exact sorted_le_getLast hsorted hL

/-- Witness for C4 at the example directory: the disabled call is a
no-op and the enabled call installs both links. -/
theorem c4_update_symlinks_witness :
    (Backupset.update_symlinks "/var/spool/holland/mysql" (some exDir) false =
       Except.ok (some exDir)) ∧
    (∀ e ∈ exDir, e.name = "oldest" ∨ e.name = "newest" → e.kind ≠ EntryKind.dir) ∧
    (∃ st', Backupset.update_symlinks "/var/spool/holland/mysql" (some exDir) true =
        Except.ok (some st') ∧
      (Backupset.listAscNames exDir = [] →
         ∀ e ∈ st', e.name ≠ "oldest" ∧ e.name ≠ "newest") ∧
      (∀ b bs, Backupset.listAscNames exDir = b :: bs →
         ∃ M, (b :: bs).getLast? = some M ∧
           st'.find? (fun e => e.name = "oldest") =
             some ⟨"oldest", EntryKind.link (pjoin "/var/spool/holland/mysql" b)⟩ ∧
           st'.find? (fun e => e.name = "newest") =
             some ⟨"newest", EntryKind.link (pjoin "/var/spool/holland/mysql" M)⟩ ∧
           (∀ x ∈ Backupset.listAscNames exDir, b ≤ x) ∧
           (∀ x ∈ Backupset.listAscNames exDir, x ≤ M))) :=
  ⟨(c4_update_symlinks "/var/spool/holland/mysql").1 (some exDir),
   by decide,
   (c4_update_symlinks "/var/spool/holland/mysql").2 exDir (by decide)⟩

/-! ### Facts about named lookup -/

theorem list_backups_named (st : List Entry) (n : String)
    (h : pyStrip n ≠ "") :
    Backupset.list_backups (some st) (some n) false =
      some (if (st.any fun e => e.name = pyStrip n) = true
        then [pyStrip n] else []) := by
  simp only [Backupset.list_backups, Option.getD_some]
  rw [if_pos h]

theorem find_backup_named (st : List Entry) (n : String)
    (h : pyStrip n ≠ "") :
    Backupset.find_backup (some st) n =
      (if (st.any fun e => e.name = pyStrip n) = true
        then some (pyStrip n) else none) := by
  have hl := list_backups_named st n h
  by_cases hany : (st.any fun e => e.name = pyStrip n) = true
  · rw [if_pos hany] at hl
    rw [if_pos hany]
    simp only [Backupset.find_backup, hl]
  · rw [if_neg hany] at hl
    rw [if_neg hany]
    simp only [Backupset.find_backup, hl]

/-- C6 counterexample: `"mysql/"` splits into two parts where the
timestamp part is empty — not two non-empty parts — yet `find_backup`
neither reports an invalid name nor returns an absent result: it falls
through to the full listing and returns the oldest backup. -/
theorem c6_counterexample :
    pySplit "mysql/" '/' = ["mysql", ""] ∧
    Spool.find_backup exSpool "mysql/" = ⟨some "20200101_000000", false⟩ :=
  ⟨by decide, rfl⟩

/-- C6 (amended): if splitting the name on `/` does not yield exactly
two parts (empty parts are allowed), `find_backup` reports the
invalid-name condition and returns an absent result without raising;
for a name splitting into `<backupset>/<timestamp>` whose timestamp is
non-empty after whitespace stripping, a missing backupset or a missing
backup entry yields an absent result with no warning and no
exception. -/
theorem c6_find_backup (spool : SpoolState) (name bs ts : String) :
    ((pySplit name '/').length ≠ 2 →
       Spool.find_backup spool name = ⟨none, true⟩) ∧
    (pySplit name '/' = [bs, ts] → pyStrip ts ≠ "" →
       (Spool.lookup spool bs = none →
          Spool.find_backup spool name = ⟨none, false⟩) ∧
       (∀ st, Spool.lookup spool bs = some st →
          (∀ e ∈ st, e.name ≠ pyStrip ts) →
          Spool.find_backup spool name = ⟨none, false⟩)) := by
  constructor
  · intro hlen
    match hsp : pySplit name '/' with
    | [] => simp only [Spool.find_backup, hsp]
    | [a] => simp only [Spool.find_backup, hsp]
    | [a, b] => rw [hsp] at hlen; simp at hlen
    | a :: b :: c :: tl => simp only [Spool.find_backup, hsp]
  · intro hsp hts
    constructor
    · intro hmiss
      simp only [Spool.find_backup, hsp, Spool.find_backupset, hmiss]
    · intro st hfound hnone
      have hany : (st.any fun e => e.name = pyStrip ts) = false :=
        List.any_eq_false.2 (fun x hx => by simpa using hnone x hx)
      have hfb := find_backup_named st ts hts
      rw [if_neg (by rw [hany]; exact Bool.false_ne_true)] at hfb
      simp only [Spool.find_backup, hsp, Spool.find_backupset, hfound, hfb]

/-- Witness for the amended C6: a malformed name, a missing backupset
and a missing backup all yield absent results. -/
theorem c6_find_backup_witness :
    ((pySplit "mysql" '/').length ≠ 2 ∧
       Spool.find_backup exSpool "mysql" = ⟨none, true⟩) ∧
    (pySplit "pgsql/20200101_000000" '/' = ["pgsql", "20200101_000000"] ∧
       pyStrip "20200101_000000" ≠ "" ∧
       Spool.lookup exSpool "pgsql" = none ∧
       Spool.find_backup exSpool "pgsql/20200101_000000" = ⟨none, false⟩) ∧
    (pySplit "mysql/20291231_235959" '/' = ["mysql", "20291231_235959"] ∧
       (∀ e ∈ exDir, e.name ≠ pyStrip "20291231_235959") ∧
       Spool.find_backup exSpool "mysql/20291231_235959" = ⟨none, false⟩) :=
  ⟨⟨by decide,
    (c6_find_backup exSpool "mysql" "" "").1 (by decide)⟩,
   ⟨by decide, by decide, by decide,
    ((c6_find_backup exSpool "pgsql/20200101_000000" "pgsql" "20200101_000000").2
      (by decide) (by decide)).1 (by decide)⟩,
   ⟨by decide, by decide,
    ((c6_find_backup exSpool "mysql/20291231_235959" "mysql" "20291231_235959").2
      (by decide) (by decide)).2 exDir (by decide) (by decide)⟩⟩

/-- C9: with a non-empty (after whitespace stripping) name,
`list_backups(name)` returns a one-element sequence exactly when the
path exists, with no check that the entry is a real directory, not a
symlink, or matches the timestamp pattern; consequently `find_backup`
returns a handle for any existing entry of that name — such as the
`oldest` symlink — even though the unnamed listing excludes it. -/
theorem c9_named_lookup_no_checks (st : List Entry) (n : String)
    (h : pyStrip n ≠ "") (hnd : (st.map Entry.name).Nodup) :
    (Backupset.list_backups (some st) (some n) false =
       some (if (st.any fun e => e.name = pyStrip n) = true
         then [pyStrip n] else [])) ∧
    (∀ e ∈ st, e.name = pyStrip n →
       Backupset.find_backup (some st) n = some (pyStrip n) ∧
       ((e.isRealDir && strptimeOk e.name) = false →
          pyStrip n ∉ Backupset.listAscNames st)) := by
  refine ⟨list_backups_named st n h, ?_⟩
  intro e he hename
  have hany : (st.any fun x => x.name = pyStrip n) = true :=
    List.any_eq_true.2 ⟨e, he, by simpa using hename⟩
  constructor
  · rw [find_backup_named st n h, if_pos hany]
  · intro hfail hmem
    obtain ⟨e', he', hp', hn'⟩ := Backupset.mem_listAscNames.1 hmem
    have hee : e' = e :=
      List.inj_on_of_nodup_map hnd he' he (hn'.trans hename.symm)
    rw [hee, hfail] at hp'
    cases hp'

/-- Witness for C9: on the example directory, the `oldest` symlink is
found by the named lookup although the unnamed listing excludes it. -/
theorem c9_named_lookup_no_checks_witness :
    pyStrip "oldest" ≠ "" ∧
    (exDir.map Entry.name).Nodup ∧
    (⟨"oldest", EntryKind.link "target"⟩ : Entry) ∈ exDir ∧
    (Backupset.find_backup (some exDir) "oldest" = some (pyStrip "oldest") ∧
     ((Entry.isRealDir ⟨"oldest", EntryKind.link "target"⟩ &&
         strptimeOk (Entry.name ⟨"oldest", EntryKind.link "target"⟩)) = false →
        pyStrip "oldest" ∉ Backupset.listAscNames exDir)) :=
  ⟨by decide, by decide, by decide,
   (c9_named_lookup_no_checks exDir "oldest" (by decide) (by decide)).2
     ⟨"oldest", EntryKind.link "target"⟩ (by decide) (by decide)⟩

/-- C10: `list_backups` strips whitespace from its name argument and
treats an empty or whitespace-only name as if no name were given,
falling through to the full listing; `find_backup` with such a name
hence returns the lexicographically smallest (oldest) backup, and
`Spool.find_backup` of a compound name with an empty timestamp part
(such as `"mysql/"`) returns that oldest backup rather than an absent
result. -/
theorem c10_empty_name_returns_oldest (st : List Entry) (n : String)
    (h : pyStrip n = "") (b : String) (bs : List String)
    (hB : Backupset.listAscNames st = b :: bs) :
    Backupset.list_backups (some st) (some n) false = some (b :: bs) ∧
    Backupset.find_backup (some st) n = some b ∧
    b ∈ Backupset.listAscNames st ∧
    (∀ x ∈ Backupset.listAscNames st, b ≤ x) ∧
    (∀ (spool : SpoolState) (bsName nm : String),
       Spool.lookup spool bsName = some st →
       pySplit nm '/' = [bsName, n] →
       Spool.find_backup spool nm = ⟨some b, false⟩) := by
  have hlb : Backupset.list_backups (some st) (some n) false = some (b :: bs) := by
    simp [Backupset.list_backups, h, hB]
  have hfb : Backupset.find_backup (some st) n = some b := by
    simp only [Backupset.find_backup, hlb]
  have hs : (b :: bs).Sorted (· ≤ ·) := by
    rw [← hB]
    exact Backupset.listAscNames_sorted_le st
  refine ⟨hlb, hfb, ?_, ?_, ?_⟩
  · rw [hB]
    exact List.mem_cons_self b bs
  · intro x hx
    rw [hB] at hx
    exact sorted_head_le hs x hx
  · intro spool bsName nm hlook hsp
    simp only [Spool.find_backup, hsp, Spool.find_backupset, hlook, hfb]

/-- Witness for C10: a whitespace-only timestamp on the example
directory returns the oldest backup, also via the spool lookup of
`"mysql/ "`. -/
theorem c10_empty_name_returns_oldest_witness :
    pyStrip " " = "" ∧
    Backupset.listAscNames exDir =
      "20200101_000000" :: ["20200102_000000", "20200103_000000"] ∧
    (Backupset.list_backups (some exDir) (some " ") false =
       some ("20200101_000000" :: ["20200102_000000", "20200103_000000"]) ∧
     Backupset.find_backup (some exDir) " " = some "20200101_000000" ∧
     "20200101_000000" ∈ Backupset.listAscNames exDir ∧
     (∀ x ∈ Backupset.listAscNames exDir, "20200101_000000" ≤ x) ∧
     (∀ (spool : SpoolState) (bsName nm : String),
        Spool.lookup spool bsName = some exDir →
        pySplit nm '/' = [bsName, " "] →
        Spool.find_backup spool nm = ⟨some "20200101_000000", false⟩)) :=
  ⟨by decide, by decide,
   c10_empty_name_returns_oldest exDir " " (by decide) "20200101_000000"
     ["20200102_000000", "20200103_000000"] (by decide)⟩

/-! ### Concrete evaluations of the strptime model

These pin the behaviour of `strptimeOk` on representative names:
canonical timestamps are accepted, un-padded variants are accepted
(leniency of the CPython regex), and calendar-invalid dates, year
zero, over-long strings and foreign names are rejected. -/

example : strptimeOk "20200101_000000" = true := by decide
example : strptimeOk "20200101_0000" = true := by decide
example : strptimeOk "oldest" = false := by decide
example : strptimeOk "newest" = false := by decide
example : strptimeOk "20200230_000000" = false := by decide
example : strptimeOk "20201301_000000" = false := by decide
example : strptimeOk "00000101_000000" = false := by decide
example : strptimeOk "20200101_000060" = true := by decide
example : strptimeOk "20200101_0000000" = false := by decide
example : strptimeOk "202011_111" = true := by decide
example : strptimeOk "2020011_000" = true := by decide
example : isTimestampShape "20200101_0000" = false := by decide
example : isTimestampShape "20200101_000000" = true := by decide
example : pySplit "a/b" '/' = ["a", "b"] := by decide
example : pySplit "a/" '/' = ["a", ""] := by decide
example : pySplit "" '/' = [""] := by decide
example : pySplit "a/b/c" '/' = ["a", "b", "c"] := by decide
example : pyStrip "  x " = "x" := by decide
example : pyStrip " " = "" := by decide
example : nameLe "20200101_000000" "20200102_000000" = true := by decide
example :
    Backupset.listAscNames
      [⟨"20200102_000000", EntryKind.dir⟩, ⟨"20200101_000000", EntryKind.dir⟩,
       ⟨"oldest", EntryKind.link "x"⟩, ⟨"notes", EntryKind.dir⟩] =
      ["20200101_000000", "20200102_000000"] := by decide

end Holland
